import Mathlib

/-!
Verification of the block segmentation, classification and dispatch core of the
two log-processing tools in this repository: the multi-destination router
(`splitLog.py`, function `extract_log_blocks`) and the block filter
(`RemoveLines.py`, function `remove_lines_from_files`).

Regular-expression matching is shallowly embedded: a compiled pattern is a
Boolean predicate on the line's text, and `re.compile` is an oracle
`String → Option (String → Bool)` that may fail on a malformed pattern.
-/

/-- Boundary predicate from both tools: the compiled timestamp regex
matches (via `re.search` on a start-anchored pattern) exactly when the line
begins with a bracketed `HH:MM:SS,mmm` stamp. -/
def isTimestampBoundary (s : String) : Bool :=
  match s.toList with
  | '[' :: a :: b :: ':' :: c :: d :: ':' :: e :: f :: ',' :: g :: h :: i :: ']' :: _ =>
      a.isDigit && b.isDigit && c.isDigit && d.isDigit && e.isDigit && f.isDigit &&
      g.isDigit && h.isDigit && i.isDigit
  | _ => false

/-- The streaming segmentation loop shared by both tools, abstracted over the
boundary predicate: `buf` is the in-progress `block_buffer`; a boundary line
closes a non-empty buffer and opens a new one holding the boundary line; any
other line is appended; end of stream flushes a non-empty buffer. -/
def segmentAux (bdry : String → Bool) : List String → List String → List (List String)
  | buf, [] => if buf.isEmpty then [] else [buf]
  | buf, l :: ls =>
      if bdry l then
        if buf.isEmpty then segmentAux bdry [l] ls
        else buf :: segmentAux bdry [l] ls
      else segmentAux bdry (buf ++ [l]) ls

theorem segmentAux_flatten (bdry : String → Bool) :
    ∀ (ls buf : List String), (segmentAux bdry buf ls).flatten = buf ++ ls := by
  intro ls
  induction ls with
  | nil =>
      intro buf
      cases buf with
      | nil => simp [segmentAux]
      | cons x xs => simp [segmentAux]
  | cons l ls ih =>
      intro buf
      by_cases hb : bdry l
      · cases buf with
        | nil => simp [segmentAux, hb, ih]
        | cons x xs => simp [segmentAux, hb, ih]
      · simp [segmentAux, hb, ih]

theorem segmentAux_tail (bdry : String → Bool) :
    ∀ (ls buf : List String), (∀ l ∈ buf.tail, bdry l = false) →
      ∀ b ∈ segmentAux bdry buf ls, ∀ l ∈ b.tail, bdry l = false := by
  intro ls
  induction ls with
  | nil =>
      intro buf hbuf b hb
      cases buf with
      | nil => simp [segmentAux] at hb
      | cons x xs =>
          simp [segmentAux] at hb
          subst hb
          exact hbuf
  | cons l ls ih =>
      intro buf hbuf b hb
      by_cases hl : bdry l
      · cases buf with
        | nil =>
            simp [segmentAux, hl] at hb
            exact ih [l] (by simp) b hb
        | cons x xs =>
            simp [segmentAux, hl] at hb
            rcases hb with hb | hb
            · subst hb
              exact hbuf
            · exact ih [l] (by simp) b hb
      · simp [segmentAux, hl] at hb
        refine ih (buf ++ [l]) ?_ b hb
        intro m hm
        cases buf with
        | nil => simp at hm
        | cons x xs =>
            simp at hm
            rcases hm with hm | hm
            · exact hbuf m (by simpa using hm)
            · subst hm
              simpa using hl

/-! ## Rule set data model (splitLog) -/

/-- A compiled pattern entry of one destination: the compiled regex (as a
match predicate) and the pattern-level `keep` flag (`alsoRouteToFallback`). -/
structure Rule where
  pat : String → Bool
  keep : Bool

/-- One destination output file of the splitLog configuration: its name,
its ordered pattern list and its file-level `keep_all_blocks` flag
(`forceFallbackForAll`). -/
structure Dest where
  name : String
  patterns : List Rule
  keep_all_blocks : Bool

/-- The inner pattern loop of splitLog (lines 300-310): test the rules of one
destination in order against one line and stop at the first match. -/
def scanRules : List Rule → String → Option Rule
  | [], _ => none
  | r :: rs, line => if r.pat line then some r else scanRules rs line

/-- The per-block classification accumulator of splitLog:
`block_destination_files` (a Python set, modelled as a duplicate-free list in
insertion order), `block_should_also_keep_unmatched_by_pattern` and
`block_should_also_keep_unmatched_by_file`. -/
structure ClassState where
  dests : List String
  keepPat : Bool
  keepFile : Bool
deriving DecidableEq

/-- Adding to a Python set: a no-op when the element is present. -/
def setAdd (s : List String) (x : String) : List String :=
  if x ∈ s then s else s ++ [x]

/-- Effect of one destination on the accumulator for one line
(splitLog lines 299-310): first matching rule claims the destination and
contributes its `keep` flag; a match also ORs in the file-level flag. -/
def applyDest (line : String) (st : ClassState) (d : Dest) : ClassState :=
  match scanRules d.patterns line with
  | none => st
  | some r =>
      { dests := setAdd st.dests d.name
        keepPat := st.keepPat || r.keep
        keepFile := st.keepFile || d.keep_all_blocks }

/-- Classification of one line against every destination (the outer loop of
splitLog lines 299-310, which never breaks). -/
def classifyLine (cfg : List Dest) (line : String) (st : ClassState) : ClassState :=
  cfg.foldl (applyDest line) st

def initClass : ClassState := ⟨[], false, false⟩

def classifyFrom (cfg : List Dest) (st : ClassState) (b : List String) : ClassState :=
  b.foldl (fun st line => classifyLine cfg line st) st

/-- The classification a block carries when it is emitted: the accumulator is
reset when the block's first line arrives and updated once per line of the
block exactly as in the source. -/
def classifyBlock (cfg : List Dest) (b : List String) : ClassState :=
  classifyFrom cfg initClass b

/-- The unmatched-file condition of splitLog lines 281-283: no destination
claimed the block, or a pattern-level `keep`, or a file-level
`keep_all_blocks` was seen. -/
def alsoFallback (st : ClassState) : Bool :=
  st.dests.isEmpty || st.keepPat || st.keepFile

def alsoFallbackOf (cfg : List Dest) (b : List String) : Bool :=
  alsoFallback (classifyBlock cfg b)

/-! ## Characterization of the classification accumulator -/

/-- The `keep` flag of the first rule of `d` matching `line`, if any. -/
def keepOfFirst (d : Dest) (line : String) : Bool :=
  match scanRules d.patterns line with
  | some r => r.keep
  | none => false

/-- Whether some rule of `d` matches `line`. -/
def destLineHit (d : Dest) (line : String) : Bool :=
  (scanRules d.patterns line).isSome

/-- Whether destination `d` claims block `b`: some rule matches some line. -/
def destClaims (d : Dest) (b : List String) : Bool :=
  b.any (fun line => destLineHit d line)

theorem scanRules_isSome (line : String) :
    ∀ rs : List Rule, (scanRules rs line).isSome = rs.any (fun r => r.pat line) := by
  intro rs
  induction rs with
  | nil => simp [scanRules]
  | cons r rs ih =>
      by_cases h : r.pat line
      · simp [scanRules, h]
      · simp [scanRules, h, ih]

theorem mem_setAdd (s : List String) (x d : String) :
    d ∈ setAdd s x ↔ d ∈ s ∨ d = x := by
  unfold setAdd
  by_cases h : x ∈ s
  · simp only [if_pos h]
    constructor
    · exact Or.inl
    · rintro (hd | rfl)
      · exact hd
      · exact h
  · simp [if_neg h]

theorem setAdd_nodup (s : List String) (x : String) (h : s.Nodup) :
    (setAdd s x).Nodup := by
  unfold setAdd
  by_cases hx : x ∈ s
  · simpa [if_pos hx]
  · rw [if_neg hx]
    refine List.nodup_append.mpr ⟨h, List.nodup_singleton x, ?_⟩
    intro a ha hb
    simp at hb
    subst hb
    exact hx ha

theorem classifyLine_cons (c : Dest) (cs : List Dest) (line : String) (st : ClassState) :
    classifyLine (c :: cs) line st = classifyLine cs line (applyDest line st c) := rfl

theorem classifyLine_dests_mem (line : String) :
    ∀ (cfg : List Dest) (st : ClassState) (d : String),
      (d ∈ (classifyLine cfg line st).dests
        ↔ d ∈ st.dests ∨ ∃ dst ∈ cfg, dst.name = d ∧ destLineHit dst line = true) := by
  intro cfg
  induction cfg with
  | nil => simp [classifyLine]
  | cons c cs ih =>
      intro st d
      rw [classifyLine_cons, ih]
      unfold applyDest
      cases hs : scanRules c.patterns line with
      | none =>
          simp only [List.mem_cons, destLineHit]
          constructor
          · rintro (h | ⟨dst, hdst, hname, hhit⟩)
            · exact Or.inl h
            · exact Or.inr ⟨dst, Or.inr hdst, hname, hhit⟩
          · rintro (h | ⟨dst, hdst | hdst, hname, hhit⟩)
            · exact Or.inl h
            · subst hdst
              rw [hs] at hhit
              simp at hhit
            · exact Or.inr ⟨dst, hdst, hname, hhit⟩
      | some r =>
          simp only [List.mem_cons, mem_setAdd]
          constructor
          · rintro ((h | h) | ⟨dst, hdst, hname, hhit⟩)
            · exact Or.inl h
            · exact Or.inr ⟨c, Or.inl rfl, h.symm, by simp [destLineHit, hs]⟩
            · exact Or.inr ⟨dst, Or.inr hdst, hname, hhit⟩
          · rintro (h | ⟨dst, hdst | hdst, hname, hhit⟩)
            · exact Or.inl (Or.inl h)
            · subst hdst
              exact Or.inl (Or.inr hname.symm)
            · exact Or.inr ⟨dst, hdst, hname, hhit⟩

theorem classifyLine_keepPat (line : String) :
    ∀ (cfg : List Dest) (st : ClassState),
      (classifyLine cfg line st).keepPat
        = (st.keepPat || cfg.any (fun d => keepOfFirst d line)) := by
  intro cfg
  induction cfg with
  | nil => simp [classifyLine]
  | cons c cs ih =>
      intro st
      rw [classifyLine_cons, ih]
      cases hs : scanRules c.patterns line with
      | none => simp [applyDest, hs, keepOfFirst]
      | some r => simp [applyDest, hs, keepOfFirst, Bool.or_assoc]

theorem classifyLine_keepFile (line : String) :
    ∀ (cfg : List Dest) (st : ClassState),
      (classifyLine cfg line st).keepFile
        = (st.keepFile || cfg.any (fun d => destLineHit d line && d.keep_all_blocks)) := by
  intro cfg
  induction cfg with
  | nil => simp [classifyLine]
  | cons c cs ih =>
      intro st
      rw [classifyLine_cons, ih]
      cases hs : scanRules c.patterns line with
      | none => simp [applyDest, hs, destLineHit]
      | some r => simp [applyDest, hs, destLineHit, Bool.or_assoc]

theorem classifyLine_nodup (cfg : List Dest) (line : String) :
    ∀ st : ClassState, st.dests.Nodup → (classifyLine cfg line st).dests.Nodup := by
  induction cfg with
  | nil => simpa [classifyLine] using fun st h => h
  | cons c cs ih =>
      intro st h
      rw [classifyLine_cons]
      refine ih _ ?_
      unfold applyDest
      cases hs : scanRules c.patterns line with
      | none => exact h
      | some r => exact setAdd_nodup _ _ h

theorem classifyFrom_cons (cfg : List Dest) (st : ClassState) (l : String) (b : List String) :
    classifyFrom cfg st (l :: b) = classifyFrom cfg (classifyLine cfg l st) b := rfl

theorem classifyFrom_dests_mem (cfg : List Dest) :
    ∀ (b : List String) (st : ClassState) (d : String),
      (d ∈ (classifyFrom cfg st b).dests
        ↔ d ∈ st.dests ∨ ∃ line ∈ b, ∃ dst ∈ cfg, dst.name = d ∧ destLineHit dst line = true) := by
  intro b
  induction b with
  | nil => simp [classifyFrom]
  | cons l b ih =>
      intro st d
      rw [classifyFrom_cons, ih, classifyLine_dests_mem]
      constructor
      · rintro ((h | ⟨dst, hdst, hname, hhit⟩) | ⟨line, hline, dst, hdst, hname, hhit⟩)
        · exact Or.inl h
        · exact Or.inr ⟨l, by simp, dst, hdst, hname, hhit⟩
        · exact Or.inr ⟨line, by simp [hline], dst, hdst, hname, hhit⟩
      · rintro (h | ⟨line, hline, dst, hdst, hname, hhit⟩)
        · exact Or.inl (Or.inl h)
        · rcases List.mem_cons.mp hline with rfl | hline
          · exact Or.inl (Or.inr ⟨dst, hdst, hname, hhit⟩)
          · exact Or.inr ⟨line, hline, dst, hdst, hname, hhit⟩

theorem classifyFrom_keepPat (cfg : List Dest) :
    ∀ (b : List String) (st : ClassState),
      (classifyFrom cfg st b).keepPat
        = (st.keepPat || b.any (fun line => cfg.any (fun d => keepOfFirst d line))) := by
  intro b
  induction b with
  | nil => simp [classifyFrom]
  | cons l b ih =>
      intro st
      rw [classifyFrom_cons, ih, classifyLine_keepPat]
      simp [Bool.or_assoc]

theorem classifyFrom_keepFile (cfg : List Dest) :
    ∀ (b : List String) (st : ClassState),
      (classifyFrom cfg st b).keepFile
        = (st.keepFile || b.any (fun line => cfg.any (fun d => destLineHit d line && d.keep_all_blocks))) := by
  intro b
  induction b with
  | nil => simp [classifyFrom]
  | cons l b ih =>
      intro st
      rw [classifyFrom_cons, ih, classifyLine_keepFile]
      simp [Bool.or_assoc]

theorem classifyFrom_nodup (cfg : List Dest) :
    ∀ (b : List String) (st : ClassState), st.dests.Nodup → (classifyFrom cfg st b).dests.Nodup := by
  intro b
  induction b with
  | nil => simpa [classifyFrom] using fun st h => h
  | cons l b ih =>
      intro st h
      rw [classifyFrom_cons]
      exact ih _ (classifyLine_nodup cfg l st h)

theorem classifyBlock_dests_mem (cfg : List Dest) (b : List String) (d : String) :
    d ∈ (classifyBlock cfg b).dests
      ↔ ∃ line ∈ b, ∃ dst ∈ cfg, dst.name = d ∧ destLineHit dst line = true := by
  rw [classifyBlock, classifyFrom_dests_mem]
  simp [initClass]

theorem classifyBlock_keepPat (cfg : List Dest) (b : List String) :
    (classifyBlock cfg b).keepPat
      = b.any (fun line => cfg.any (fun d => keepOfFirst d line)) := by
  rw [classifyBlock, classifyFrom_keepPat]
  simp [initClass]

theorem classifyBlock_keepFile (cfg : List Dest) (b : List String) :
    (classifyBlock cfg b).keepFile
      = b.any (fun line => cfg.any (fun d => destLineHit d line && d.keep_all_blocks)) := by
  rw [classifyBlock, classifyFrom_keepFile]
  simp [initClass]

theorem classifyBlock_nodup (cfg : List Dest) (b : List String) :
    (classifyBlock cfg b).dests.Nodup :=
  classifyFrom_nodup cfg b initClass (by simp [initClass])

theorem boolOfIff {a b : Bool} (h : a = true ↔ b = true) : a = b := by
  cases a <;> cases b <;> simp_all

theorem classifyBlock_isEmpty (cfg : List Dest) (b : List String) :
    (classifyBlock cfg b).dests.isEmpty
      = !(b.any (fun line => cfg.any (fun d => destLineHit d line))) := by
  apply boolOfIff
  constructor
  · intro h
    rw [List.isEmpty_iff] at h
    simp only [Bool.not_eq_true', List.any_eq_false]
    intro line hline
    by_contra hc
    rcases List.any_eq_true.mp hc with ⟨dst, hdst, hhit⟩
    have hmem : dst.name ∈ (classifyBlock cfg b).dests :=
      (classifyBlock_dests_mem cfg b dst.name).mpr ⟨line, hline, dst, hdst, rfl, hhit⟩
    rw [h] at hmem
    exact absurd hmem (List.not_mem_nil _)
  · intro h
    rw [List.isEmpty_iff]
    cases hcase : (classifyBlock cfg b).dests with
    | nil => rfl
    | cons d rest =>
        exfalso
        have hd : d ∈ (classifyBlock cfg b).dests := by
          rw [hcase]
          simp
        rcases (classifyBlock_dests_mem cfg b d).mp hd with ⟨line, hline, dst, hdst, _, hhit⟩
        have hb : (b.any (fun line => cfg.any (fun d => destLineHit d line))) = true :=
          List.any_eq_true.mpr ⟨line, hline, List.any_eq_true.mpr ⟨dst, hdst, hhit⟩⟩
        rw [hb] at h
        simp at h

/-! ## The splitLog per-file runner (extract_log_blocks, lines 245-339)

Dispatch writes are recorded as an append trace of `(sink name, block lines)`
events. A sink that the environment makes unwritable is modelled by the
oracle `failSink`; an attempted write to such a sink raises, which the
runner reports by returning `false` (the per-file `except` at line 338
catches it). `noFail` is the environment in which every write succeeds. -/

def noFail : String → Bool := fun _ => false

/-- Ghost record of one emitted block: its lines and the classification
state it was dispatched with. -/
structure BlockRec where
  lines : List String
  dests : List String
  keepPat : Bool
  keepFile : Bool
deriving DecidableEq

structure SplitFileState where
  buf : List String
  cls : ClassState
  blocksRead : Nat
  blocksExtracted : Nat
  unmatchedBlocks : Nat
  writes : List (String × List String)
  records : List BlockRec
deriving DecidableEq

/-- The destination write loop of splitLog lines 271-275: append the block to
each claimed sink in turn; a failing sink raises, keeping the writes already
performed (`false` result). -/
def writeDests (failSink : String → Bool) (buf : List String) :
    List String → List (String × List String) → (List (String × List String) × Bool)
  | [], acc => (acc, true)
  | d :: ds, acc =>
      if failSink d then (acc, false)
      else writeDests failSink buf ds (acc ++ [(d, buf)])

/-- Emission of a completed block (splitLog lines 267-287 and 312-330):
count it, write it to every claimed destination, then decide and perform the
unmatched-file write. -/
def emitBlock (failSink : String → Bool) (uname : String) (st : SplitFileState) :
    SplitFileState × Bool :=
  let st1 : SplitFileState :=
    { st with
        blocksRead := st.blocksRead + 1
        records := st.records ++ [⟨st.buf, st.cls.dests, st.cls.keepPat, st.cls.keepFile⟩] }
  let step2 : SplitFileState × Bool :=
    if st1.cls.dests.isEmpty then (st1, true)
    else
      match writeDests failSink st1.buf st1.cls.dests st1.writes with
      | (ws, true) => ({ st1 with writes := ws, blocksExtracted := st1.blocksExtracted + 1 }, true)
      | (ws, false) => ({ st1 with writes := ws }, false)
  match step2 with
  | (st2, false) => (st2, false)
  | (st2, true) =>
      if st2.cls.dests.isEmpty || st2.cls.keepPat || st2.cls.keepFile then
        if failSink uname then (st2, false)
        else ({ st2 with
                  writes := st2.writes ++ [(uname, st2.buf)]
                  unmatchedBlocks := st2.unmatchedBlocks + 1 }, true)
      else (st2, true)

/-- One iteration of the line loop (splitLog lines 264-310): segmentation
step, then classification of the current line. An exception during block
emission aborts immediately. -/
def splitStep (bdry : String → Bool) (cfg : List Dest) (failSink : String → Bool)
    (uname : String) (st : SplitFileState) (line : String) : SplitFileState × Bool :=
  let r : SplitFileState × Bool :=
    if bdry line then
      match (if st.buf.isEmpty then (st, true) else emitBlock failSink uname st) with
      | (st1, false) => (st1, false)
      | (st1, true) => ({ st1 with buf := [line], cls := initClass }, true)
    else ({ st with buf := st.buf ++ [line] }, true)
  match r with
  | (st1, false) => (st1, false)
  | (st1, true) => ({ st1 with cls := classifyLine cfg line st1.cls }, true)

/-- The whole line loop followed by the end-of-file flush
(splitLog lines 264-330). -/
def splitLines (bdry : String → Bool) (cfg : List Dest) (failSink : String → Bool)
    (uname : String) : SplitFileState → List String → SplitFileState × Bool
  | st, [] => if st.buf.isEmpty then (st, true) else emitBlock failSink uname st
  | st, l :: ls =>
      match splitStep bdry cfg failSink uname st l with
      | (st1, true) => splitLines bdry cfg failSink uname st1 ls
      | (st1, false) => (st1, false)

def initSplitState : SplitFileState := ⟨[], initClass, 0, 0, 0, [], []⟩

/-- Processing of one source file by splitLog, given its lines. -/
def splitFile (bdry : String → Bool) (cfg : List Dest) (failSink : String → Bool)
    (uname : String) (lines : List String) : SplitFileState × Bool :=
  splitLines bdry cfg failSink uname initSplitState lines

/-- The ghost record carried by a block on emission, expressed through the
per-block classification. -/
def recOf (cfg : List Dest) (b : List String) : BlockRec :=
  ⟨b, (classifyBlock cfg b).dests, (classifyBlock cfg b).keepPat, (classifyBlock cfg b).keepFile⟩

/-- The write events one block generates in a failure-free run: one append
per claimed destination, plus the unmatched-file append when the fallback
condition holds. -/
def blockWrites (cfg : List Dest) (uname : String) (b : List String) :
    List (String × List String) :=
  (classifyBlock cfg b).dests.map (fun d => (d, b))
    ++ (if alsoFallbackOf cfg b then [(uname, b)] else [])

theorem writeDests_noFail (buf : List String) :
    ∀ (ds : List String) (acc : List (String × List String)),
      writeDests noFail buf ds acc = (acc ++ ds.map (fun d => (d, buf)), true) := by
  intro ds
  induction ds with
  | nil =>
      intro acc
      simp [writeDests]
  | cons d ds ih =>
      intro acc
      simp [writeDests, noFail, ih]


theorem emitBlock_noFail (uname : String) (st : SplitFileState) :
    emitBlock noFail uname st =
      ({ st with
          blocksRead := st.blocksRead + 1
          blocksExtracted := st.blocksExtracted + (if st.cls.dests.isEmpty then 0 else 1)
          unmatchedBlocks := st.unmatchedBlocks + (if alsoFallback st.cls then 1 else 0)
          writes := st.writes ++ st.cls.dests.map (fun d => (d, st.buf))
              ++ (if alsoFallback st.cls then [(uname, st.buf)] else [])
          records := st.records ++ [⟨st.buf, st.cls.dests, st.cls.keepPat, st.cls.keepFile⟩] },
        true) := by
  unfold emitBlock
  cases hd : st.cls.dests with
  | nil =>
      by_cases hk : (st.cls.keepPat || st.cls.keepFile) = true
      · simp [hd, hk, alsoFallback, noFail]
      · simp only [Bool.or_eq_true] at hk
        push_neg at hk
        simp [hd, hk.1, hk.2, alsoFallback, noFail]
  | cons d ds =>
      by_cases hk : (st.cls.keepPat || st.cls.keepFile) = true
      · simp [hd, hk, alsoFallback, noFail, writeDests_noFail, List.append_assoc]
      · simp only [Bool.or_eq_true] at hk
        push_neg at hk
        simp [hd, hk.1, hk.2, alsoFallback, noFail, writeDests_noFail, List.append_assoc]

theorem classifyBlock_nil (cfg : List Dest) : classifyBlock cfg [] = initClass := rfl

theorem classifyBlock_singleton (cfg : List Dest) (l : String) :
    classifyBlock cfg [l] = classifyLine cfg l initClass := rfl

theorem classifyBlock_snoc (cfg : List Dest) (b : List String) (l : String) :
    classifyBlock cfg (b ++ [l]) = classifyLine cfg l (classifyBlock cfg b) := by
  unfold classifyBlock classifyFrom
  rw [List.foldl_append]
  rfl

/-- Master characterization of a failure-free splitLog run from an arbitrary
consistent intermediate state: the run never aborts, and the ghost records,
write trace and counters are exactly those of the blocks that `segmentAux`
yields from the buffered and remaining lines. -/
theorem splitLines_master (bdry : String → Bool) (cfg : List Dest) (uname : String) :
    ∀ (lines : List String) (st : SplitFileState), st.cls = classifyBlock cfg st.buf →
      (splitLines bdry cfg noFail uname st lines).2 = true
      ∧ (splitLines bdry cfg noFail uname st lines).1.records
          = st.records ++ (segmentAux bdry st.buf lines).map (recOf cfg)
      ∧ (splitLines bdry cfg noFail uname st lines).1.writes
          = st.writes ++ ((segmentAux bdry st.buf lines).map (blockWrites cfg uname)).flatten
      ∧ (splitLines bdry cfg noFail uname st lines).1.blocksRead
          = st.blocksRead + (segmentAux bdry st.buf lines).length
      ∧ (splitLines bdry cfg noFail uname st lines).1.blocksExtracted
          = st.blocksExtracted
            + ((segmentAux bdry st.buf lines).filter
                (fun b => !(classifyBlock cfg b).dests.isEmpty)).length
      ∧ (splitLines bdry cfg noFail uname st lines).1.unmatchedBlocks
          = st.unmatchedBlocks
            + ((segmentAux bdry st.buf lines).filter (fun b => alsoFallbackOf cfg b)).length := by
  intro lines
  induction lines with
  | nil =>
      intro st hcls
      cases hbe : st.buf.isEmpty with
      | true =>
          simp [splitLines, hbe, segmentAux]
      | false =>
          have hrun : splitLines bdry cfg noFail uname st [] = emitBlock noFail uname st := by
            simp [splitLines, hbe]
          have hseg : segmentAux bdry st.buf [] = [st.buf] := by
            simp [segmentAux, hbe]
          rw [hrun, emitBlock_noFail, hseg]
          refine ⟨rfl, ?_, ?_, rfl, ?_, ?_⟩
          · simp [recOf, hcls]
          · simp [blockWrites, alsoFallbackOf, hcls]
          · rw [hcls]
            simp only [List.filter_cons, List.filter_nil]
            cases hemp : (classifyBlock cfg st.buf).dests.isEmpty <;> simp [hemp]
          · rw [hcls]
            simp only [alsoFallbackOf, List.filter_cons, List.filter_nil]
            cases hfb : alsoFallback (classifyBlock cfg st.buf) <;> simp [hfb]
  | cons l ls ih =>
      intro st hcls
      by_cases hbl : bdry l
      · cases hbe : st.buf.isEmpty with
        | true =>
            have hstep : splitStep bdry cfg noFail uname st l
                = ({ st with buf := [l], cls := classifyLine cfg l initClass }, true) := by
              simp [splitStep, hbl, hbe]
            have ihr := ih { st with buf := [l], cls := classifyLine cfg l initClass }
              (by simp [classifyBlock_singleton])
            simp only [splitLines, hstep]
            simpa [segmentAux, hbl, hbe] using ihr
        | false =>
            have hstep : splitStep bdry cfg noFail uname st l
                = ({ (emitBlock noFail uname st).1 with
                      buf := [l], cls := classifyLine cfg l initClass }, true) := by
              simp [splitStep, hbl, hbe, emitBlock_noFail]
            have ihr := ih ({ (emitBlock noFail uname st).1 with
                buf := [l], cls := classifyLine cfg l initClass })
              (by simp [classifyBlock_singleton])
            simp only [splitLines, hstep]
            rcases ihr with ⟨h1, h2, h3, h4, h5, h6⟩
            have hseg : segmentAux bdry st.buf (l :: ls)
                = st.buf :: segmentAux bdry [l] ls := by
              simp [segmentAux, hbl, hbe]
            refine ⟨h1, ?_, ?_, ?_, ?_, ?_⟩
            · rw [h2, hseg]
              simp [emitBlock_noFail, recOf, hcls, List.append_assoc]
            · rw [h3, hseg]
              simp [emitBlock_noFail, blockWrites, alsoFallbackOf, hcls, List.append_assoc]
            · rw [h4, hseg]
              simp only [emitBlock_noFail, List.length_cons]
              omega
            · rw [h5, hseg]
              simp only [emitBlock_noFail, List.filter_cons]
              rw [hcls]
              cases hemp : (classifyBlock cfg st.buf).dests.isEmpty <;> simp [hemp] <;> omega
            · rw [h6, hseg]
              simp only [emitBlock_noFail, alsoFallbackOf, List.filter_cons]
              rw [hcls]
              cases hfb : alsoFallback (classifyBlock cfg st.buf) <;> simp [hfb] <;> omega
      · have hstep : splitStep bdry cfg noFail uname st l
            = ({ st with buf := st.buf ++ [l], cls := classifyLine cfg l st.cls }, true) := by
          simp [splitStep, hbl]
        have ihr := ih { st with buf := st.buf ++ [l], cls := classifyLine cfg l st.cls }
          (by simp [classifyBlock_snoc, hcls])
        simp only [splitLines, hstep]
        simpa [segmentAux, hbl] using ihr

/-! ## The RemoveLines per-file runner (remove_lines_from_files, lines 141-203) -/

/-- Python `str.strip()`: whitespace removed from both ends. -/
def pyStrip (s : String) : String :=
  ⟨((s.toList.dropWhile Char.isWhitespace).reverse.dropWhile Char.isWhitespace).reverse⟩

/-- Python `str.startswith('#')`. -/
def startsHash (s : String) : Bool :=
  match s.toList with
  | c :: _ => c == '#'
  | [] => false

/-- Reading the removal-pattern file (read_patterns_from_file, lines 17-25):
keep the stripped text of every non-blank line that does not start with a
comment marker. -/
def read_patterns_from_file (fileLines : List String) : List String :=
  fileLines.foldl
    (fun acc line =>
      if !(pyStrip line).toList.isEmpty && !(startsHash (pyStrip line)) then
        acc ++ [pyStrip line]
      else acc)
    []

/-- The combined removal regex built at RemoveLines lines 123-127: the
alternation of all patterns, which matches a line exactly when some pattern
does; no regex at all is built from an empty pattern list. `compile` is the
regex-engine oracle giving each pattern string its match predicate. -/
def combinedMatcher (compile : String → String → Bool) (pats : List String) :
    String → Bool :=
  fun s => pats.any (fun p => compile p s)

def buildRemovalRegex (compile : String → String → Bool) (pats : List String) :
    Option (String → Bool) :=
  if pats.isEmpty then none else some (combinedMatcher compile pats)

structure RemFileState where
  buf : List String
  blockMatch : Bool
  linesRead : Nat
  linesRemoved : Nat
  blocksProcessed : Nat
  blocksRemoved : Nat
  output : List String
  blocks : List (List String)
deriving DecidableEq

/-- Emission of a completed block (RemoveLines lines 163-172 and 186-193):
write it to the per-file output unless a removal pattern matched inside it,
in which case its whole line count is added to the removed total. The `blocks`
field is a ghost trace of every emitted block. -/
def remEmit (st : RemFileState) : RemFileState :=
  let st1 : RemFileState :=
    { st with blocksProcessed := st.blocksProcessed + 1, blocks := st.blocks ++ [st.buf] }
  if !st1.blockMatch then { st1 with output := st1.output ++ st1.buf }
  else
    { st1 with
        linesRemoved := st1.linesRemoved + st1.buf.length
        blocksRemoved := st1.blocksRemoved + 1 }

/-- The segmentation half of one loop iteration (RemoveLines lines 158-179). -/
def remSeg (bdry : String → Bool) (st : RemFileState) (line : String) : RemFileState :=
  let st1 : RemFileState := { st with linesRead := st.linesRead + 1 }
  if bdry line then
    let st2 := if st1.buf.isEmpty then st1 else remEmit st1
    { st2 with buf := [line], blockMatch := false }
  else { st1 with buf := st1.buf ++ [line] }

/-- The per-line pattern check (RemoveLines lines 181-183): only performed
when a combined removal regex was built. -/
def remMark (rr : Option (String → Bool)) (st : RemFileState) (line : String) :
    RemFileState :=
  match rr with
  | none => st
  | some r => if r line then { st with blockMatch := true } else st

def remStep (bdry : String → Bool) (rr : Option (String → Bool))
    (st : RemFileState) (line : String) : RemFileState :=
  remMark rr (remSeg bdry st line) line

def remLines (bdry : String → Bool) (rr : Option (String → Bool))
    (st : RemFileState) (lines : List String) : RemFileState :=
  lines.foldl (remStep bdry rr) st

/-- The end-of-file flush (RemoveLines lines 186-193). -/
def remFlush (st : RemFileState) : RemFileState :=
  if st.buf.isEmpty then st else remEmit st

def initRem : RemFileState := ⟨[], false, 0, 0, 0, 0, [], []⟩

/-- Processing of one source file by RemoveLines, given its lines. -/
def remFile (bdry : String → Bool) (rr : Option (String → Bool))
    (lines : List String) : RemFileState :=
  remFlush (remLines bdry rr initRem lines)

theorem remMark_eq (rr : Option (String → Bool)) (st : RemFileState) (l : String) :
    remMark rr st l
      = { st with blockMatch := match rr with
            | none => st.blockMatch
            | some r => st.blockMatch || r l } := by
  cases rr with
  | none => rfl
  | some r =>
      by_cases h : r l
      · simp [remMark, h]
      · simp [remMark, h]

theorem remLines_cons (bdry : String → Bool) (rr : Option (String → Bool))
    (st : RemFileState) (l : String) (ls : List String) :
    remLines bdry rr st (l :: ls) = remLines bdry rr (remStep bdry rr st l) ls := rfl

/-- Master characterization of a RemoveLines run from a consistent
intermediate state: the emitted blocks are those of `segmentAux`, the output
is the in-order concatenation of the blocks without a matching line, and the
removal counters total exactly the matching blocks. -/
theorem remLines_master (bdry : String → Bool) (r : String → Bool) :
    ∀ (lines : List String) (st : RemFileState), st.blockMatch = st.buf.any r →
      (remFlush (remLines bdry (some r) st lines)).blocks
          = st.blocks ++ segmentAux bdry st.buf lines
      ∧ (remFlush (remLines bdry (some r) st lines)).output
          = st.output ++ ((segmentAux bdry st.buf lines).filter (fun b => !(b.any r))).flatten
      ∧ (remFlush (remLines bdry (some r) st lines)).linesRemoved
          = st.linesRemoved
            + (((segmentAux bdry st.buf lines).filter (fun b => b.any r)).map
                List.length).sum
      ∧ (remFlush (remLines bdry (some r) st lines)).blocksRemoved
          = st.blocksRemoved + ((segmentAux bdry st.buf lines).filter (fun b => b.any r)).length
      ∧ (remFlush (remLines bdry (some r) st lines)).blocksProcessed
          = st.blocksProcessed + (segmentAux bdry st.buf lines).length
      ∧ (remFlush (remLines bdry (some r) st lines)).linesRead
          = st.linesRead + lines.length := by
  intro lines
  induction lines with
  | nil =>
      intro st hm
      cases hbe : st.buf.isEmpty with
      | true =>
          simp [remLines, remFlush, hbe, segmentAux]
      | false =>
          have hseg : segmentAux bdry st.buf [] = [st.buf] := by
            simp [segmentAux, hbe]
          simp only [remLines, List.foldl_nil, remFlush, hbe, Bool.false_eq_true, if_false,
            hseg]
          cases hmatch : st.buf.any r with
          | true =>
              have hbm : st.blockMatch = true := hm.trans hmatch
              simp [remEmit, hbm, hmatch]
          | false =>
              have hbm : st.blockMatch = false := hm.trans hmatch
              simp [remEmit, hbm, hmatch]
  | cons l ls ih =>
      intro st hm
      rw [remLines_cons]
      unfold remStep
      by_cases hbl : bdry l
      · cases hbe : st.buf.isEmpty with
        | true =>
            have hseg : segmentAux bdry st.buf (l :: ls) = segmentAux bdry [l] ls := by
              simp [segmentAux, hbl, hbe]
            have hstate : remMark (some r) (remSeg bdry st l) l
                = { st with
                    linesRead := st.linesRead + 1
                    buf := [l]
                    blockMatch := r l } := by
              rw [remMark_eq]
              simp [remSeg, hbl, hbe]
            rw [hstate]
            have ihr := ih { st with
                linesRead := st.linesRead + 1
                buf := [l]
                blockMatch := r l } (by simp)
            rcases ihr with ⟨h1, h2, h3, h4, h5, h6⟩
            rw [hseg]
            refine ⟨h1, h2, h3, h4, h5, ?_⟩
            rw [h6]
            simp only [List.length_cons]
            omega
        | false =>
            have hstate : remMark (some r) (remSeg bdry st l) l
                = { (remEmit { st with linesRead := st.linesRead + 1 }) with
                    buf := [l]
                    blockMatch := r l } := by
              rw [remMark_eq]
              simp [remSeg, hbl, hbe]
            rw [hstate]
            have ihr := ih { (remEmit { st with linesRead := st.linesRead + 1 }) with
                buf := [l]
                blockMatch := r l } (by simp)
            rcases ihr with ⟨h1, h2, h3, h4, h5, h6⟩
            have hseg : segmentAux bdry st.buf (l :: ls)
                = st.buf :: segmentAux bdry [l] ls := by
              simp [segmentAux, hbl, hbe]
            rw [hseg]
            cases hmatch : st.buf.any r with
            | true =>
                have hbm : st.blockMatch = true := hm.trans hmatch
                refine ⟨?_, ?_, ?_, ?_, ?_, ?_⟩
                · rw [h1]
                  simp [remEmit, hbm, List.append_assoc]
                · rw [h2]
                  simp [remEmit, hbm, hmatch]
                · rw [h3]
                  simp [remEmit, hbm, hmatch]
                  omega
                · rw [h4]
                  simp [remEmit, hbm, hmatch]
                  omega
                · rw [h5]
                  simp [remEmit, hbm]
                  omega
                · rw [h6]
                  simp [remEmit, hbm]
                  omega
            | false =>
                have hbm : st.blockMatch = false := hm.trans hmatch
                refine ⟨?_, ?_, ?_, ?_, ?_, ?_⟩
                · rw [h1]
                  simp [remEmit, hbm, List.append_assoc]
                · rw [h2]
                  simp [remEmit, hbm, hmatch, List.append_assoc]
                · rw [h3]
                  simp [remEmit, hbm, hmatch]
                · rw [h4]
                  simp [remEmit, hbm, hmatch]
                · rw [h5]
                  simp [remEmit, hbm]
                  omega
                · rw [h6]
                  simp [remEmit, hbm]
                  omega
      · have hstate : remMark (some r) (remSeg bdry st l) l
            = { st with
                linesRead := st.linesRead + 1
                buf := st.buf ++ [l]
                blockMatch := st.blockMatch || r l } := by
          rw [remMark_eq]
          simp [remSeg, hbl]
        rw [hstate]
        have ihr := ih { st with
            linesRead := st.linesRead + 1
            buf := st.buf ++ [l]
            blockMatch := st.blockMatch || r l } (by simp [hm, List.any_append])
        have hseg : segmentAux bdry st.buf (l :: ls) = segmentAux bdry (st.buf ++ [l]) ls := by
          simp [segmentAux, hbl]
        rcases ihr with ⟨h1, h2, h3, h4, h5, h6⟩
        rw [hseg]
        refine ⟨h1, h2, h3, h4, h5, ?_⟩
        rw [h6]
        simp only [List.length_cons]
        omega

/-! ## Multi-file coordinators

A source file is its name together with `some` lines when `open` succeeds, or
`none` when opening or reading it raises (the per-file `except` blocks at
splitLog line 338 and RemoveLines line 202 then report the file and move on).
-/

structure FileInput where
  name : String
  content : Option (List String)
deriving DecidableEq

/-- Name of the per-source-file fallback sink of splitLog (line 250). -/
def unmatchedName (fname : String) : String := fname ++ "_unmatched.log"

/-- Global accumulated effect of a splitLog run: files opened, sink append
trace, reported per-file errors, and the summary counters of lines 332-335. -/
structure GState where
  opened : List String
  writes : List (String × List String)
  errors : List String
  processedFiles : Nat
  totalBlocksRead : Nat
  totalBlocksExtracted : Nat
  totalUnmatched : Nat
deriving DecidableEq

def gEmpty : GState := ⟨[], [], [], 0, 0, 0, 0⟩

def gAppend (a b : GState) : GState :=
  ⟨a.opened ++ b.opened, a.writes ++ b.writes, a.errors ++ b.errors,
    a.processedFiles + b.processedFiles, a.totalBlocksRead + b.totalBlocksRead,
    a.totalBlocksExtracted + b.totalBlocksExtracted, a.totalUnmatched + b.totalUnmatched⟩

/-- Effect of one source file on the global state (splitLog lines 245-339):
an unreadable file is reported and skipped; an exception inside the file
leaves the writes already performed, reports the file, and skips the
summary accumulation of lines 332-335; a clean run accumulates everything. -/
def splitFileDelta (cfg : List Dest) (failSink : String → Bool) (f : FileInput) : GState :=
  match f.content with
  | none => ⟨[], [], [f.name], 0, 0, 0, 0⟩
  | some lines =>
      match splitFile isTimestampBoundary cfg failSink (unmatchedName f.name) lines with
      | (st, true) => ⟨[f.name], st.writes, [], 1, st.blocksRead, st.blocksExtracted,
          st.unmatchedBlocks⟩
      | (st, false) => ⟨[f.name], st.writes, [f.name], 0, 0, 0, 0⟩

def splitLoop (cfg : List Dest) (failSink : String → Bool) :
    GState → List FileInput → GState
  | g, [] => g
  | g, f :: fs => splitLoop cfg failSink (gAppend g (splitFileDelta cfg failSink f)) fs

/-- The whole file loop of splitLog (lines 245-339). -/
def splitProcessFiles (cfg : List Dest) (failSink : String → Bool)
    (fs : List FileInput) : GState :=
  splitLoop cfg failSink gEmpty fs

/-- Global accumulated effect of a RemoveLines run: files opened, per-file
primary outputs, reported errors and the summary counters of lines 195-199. -/
structure RemGState where
  opened : List String
  outputs : List (String × List String)
  errors : List String
  processedFiles : Nat
  totalLinesRead : Nat
  totalLinesRemoved : Nat
  totalBlocksProcessed : Nat
  totalBlocksRemoved : Nat
deriving DecidableEq

def rgEmpty : RemGState := ⟨[], [], [], 0, 0, 0, 0, 0⟩

def rgAppend (a b : RemGState) : RemGState :=
  ⟨a.opened ++ b.opened, a.outputs ++ b.outputs, a.errors ++ b.errors,
    a.processedFiles + b.processedFiles, a.totalLinesRead + b.totalLinesRead,
    a.totalLinesRemoved + b.totalLinesRemoved,
    a.totalBlocksProcessed + b.totalBlocksProcessed,
    a.totalBlocksRemoved + b.totalBlocksRemoved⟩

/-- Effect of one source file on the RemoveLines global state
(lines 141-203). -/
def remFileDelta (rr : Option (String → Bool)) (f : FileInput) : RemGState :=
  match f.content with
  | none => ⟨[], [], [f.name], 0, 0, 0, 0, 0⟩
  | some lines =>
      let st := remFile isTimestampBoundary rr lines
      ⟨[f.name], [(f.name, st.output)], [], 1, st.linesRead, st.linesRemoved,
        st.blocksProcessed, st.blocksRemoved⟩

def remLoop (rr : Option (String → Bool)) : RemGState → List FileInput → RemGState
  | g, [] => g
  | g, f :: fs => remLoop rr (rgAppend g (remFileDelta rr f)) fs

/-- The whole file loop of RemoveLines (lines 141-203). -/
def remProcessFiles (rr : Option (String → Bool)) (fs : List FileInput) : RemGState :=
  remLoop rr rgEmpty fs

theorem gAppend_assoc (a b c : GState) :
    gAppend (gAppend a b) c = gAppend a (gAppend b c) := by
  simp [gAppend, List.append_assoc, Nat.add_assoc]

theorem gAppend_empty_left (a : GState) : gAppend gEmpty a = a := by
  simp [gAppend, gEmpty]

theorem gAppend_empty_right (a : GState) : gAppend a gEmpty = a := by
  simp [gAppend, gEmpty]

theorem splitLoop_eq (cfg : List Dest) (failSink : String → Bool) :
    ∀ (fs : List FileInput) (g : GState),
      splitLoop cfg failSink g fs = gAppend g (splitProcessFiles cfg failSink fs) := by
  intro fs
  induction fs with
  | nil =>
      intro g
      simp [splitLoop, splitProcessFiles, gAppend_empty_right]
  | cons f fs ih =>
      intro g
      show splitLoop cfg failSink (gAppend g (splitFileDelta cfg failSink f)) fs = _
      rw [ih]
      have : splitProcessFiles cfg failSink (f :: fs)
          = gAppend (splitFileDelta cfg failSink f) (splitProcessFiles cfg failSink fs) := by
        show splitLoop cfg failSink (gAppend gEmpty (splitFileDelta cfg failSink f)) fs = _
        rw [ih, gAppend_empty_left]
      rw [this, gAppend_assoc]

theorem splitProcessFiles_append (cfg : List Dest) (failSink : String → Bool)
    (fs₁ fs₂ : List FileInput) :
    splitProcessFiles cfg failSink (fs₁ ++ fs₂)
      = gAppend (splitProcessFiles cfg failSink fs₁) (splitProcessFiles cfg failSink fs₂) := by
  induction fs₁ with
  | nil =>
      simp [splitProcessFiles, splitLoop, gAppend_empty_left]
  | cons f fs ih =>
      show splitLoop cfg failSink (gAppend gEmpty (splitFileDelta cfg failSink f)) (fs ++ fs₂)
          = _
      rw [splitLoop_eq, gAppend_empty_left, show splitProcessFiles cfg failSink (fs ++ fs₂)
          = gAppend (splitProcessFiles cfg failSink fs) (splitProcessFiles cfg failSink fs₂)
          from ih]
      conv_rhs =>
        rw [show splitProcessFiles cfg failSink (f :: fs)
          = splitLoop cfg failSink (gAppend gEmpty (splitFileDelta cfg failSink f)) fs from rfl]
        rw [splitLoop_eq, gAppend_empty_left]
      rw [gAppend_assoc]

theorem rgAppend_assoc (a b c : RemGState) :
    rgAppend (rgAppend a b) c = rgAppend a (rgAppend b c) := by
  simp [rgAppend, List.append_assoc, Nat.add_assoc]

theorem rgAppend_empty_left (a : RemGState) : rgAppend rgEmpty a = a := by
  simp [rgAppend, rgEmpty]

theorem rgAppend_empty_right (a : RemGState) : rgAppend a rgEmpty = a := by
  simp [rgAppend, rgEmpty]

theorem remLoop_eq (rr : Option (String → Bool)) :
    ∀ (fs : List FileInput) (g : RemGState),
      remLoop rr g fs = rgAppend g (remProcessFiles rr fs) := by
  intro fs
  induction fs with
  | nil =>
      intro g
      simp [remLoop, remProcessFiles, rgAppend_empty_right]
  | cons f fs ih =>
      intro g
      show remLoop rr (rgAppend g (remFileDelta rr f)) fs = _
      rw [ih]
      have : remProcessFiles rr (f :: fs)
          = rgAppend (remFileDelta rr f) (remProcessFiles rr fs) := by
        show remLoop rr (rgAppend rgEmpty (remFileDelta rr f)) fs = _
        rw [ih, rgAppend_empty_left]
      rw [this, rgAppend_assoc]

theorem remProcessFiles_append (rr : Option (String → Bool)) (fs₁ fs₂ : List FileInput) :
    remProcessFiles rr (fs₁ ++ fs₂)
      = rgAppend (remProcessFiles rr fs₁) (remProcessFiles rr fs₂) := by
  induction fs₁ with
  | nil =>
      simp [remProcessFiles, remLoop, rgAppend_empty_left]
  | cons f fs ih =>
      show remLoop rr (rgAppend rgEmpty (remFileDelta rr f)) (fs ++ fs₂) = _
      rw [remLoop_eq, rgAppend_empty_left, show remProcessFiles rr (fs ++ fs₂)
          = rgAppend (remProcessFiles rr fs) (remProcessFiles rr fs₂) from ih]
      conv_rhs =>
        rw [show remProcessFiles rr (f :: fs)
          = remLoop rr (rgAppend rgEmpty (remFileDelta rr f)) fs from rfl]
        rw [remLoop_eq, rgAppend_empty_left]
      rw [rgAppend_assoc]

/-! ## Configuration loading and compilation (splitLog lines 22-75, 193-211)

The parsed JSON configuration is modelled by a small value type; the
validation of `read_json_config` and the `re.compile` loop (which both call
`sys.exit(1)` on failure) happen before any source file is listed or opened.
-/

inductive JVal where
  | jstr (s : String)
  | jbool (b : Bool)
  | jnum (n : Int)
  | jarr (xs : List JVal)
  | jobj (fields : List (String × JVal))

/-- Python dictionary key lookup. -/
def lookupField (fields : List (String × JVal)) (k : String) : Option JVal :=
  match fields.find? (fun kv => kv.1 == k) with
  | some kv => some kv.2
  | none => none

/-- One validated pattern entry: pattern string and its `keep` flag. -/
structure RawFileCfg where
  patterns : List (String × Bool)
  keep_all_blocks : Bool
deriving DecidableEq

/-- Validation of one pattern item (splitLog lines 40-57): a bare string, or
an object with a string `pattern` and an optional boolean `keep`. -/
def validatePatternItem (j : JVal) : Except String (String × Bool) :=
  match j with
  | .jstr s => .ok (s, false)
  | .jobj fields =>
      match lookupField fields "pattern" with
      | some (.jstr s) =>
          match lookupField fields "keep" with
          | none => .ok (s, false)
          | some (.jbool b) => .ok (s, b)
          | some _ => .error "keep must be a boolean"
      | _ => .error "pattern definition must have a pattern string key"
  | _ => .error "pattern item must be a string or an object"

def validateItems : List JVal → Except String (List (String × Bool))
  | [] => .ok []
  | j :: js =>
      match validatePatternItem j with
      | .error e => .error e
      | .ok p =>
          match validateItems js with
          | .error e => .error e
          | .ok ps => .ok (p :: ps)

/-- Validation of one output-file entry (splitLog lines 27-62). -/
def validateFileCfg (j : JVal) : Except String RawFileCfg :=
  match j with
  | .jobj fields =>
      match lookupField fields "patterns" with
      | some (.jarr items) =>
          match lookupField fields "keep_all_blocks" with
          | none =>
              match validateItems items with
              | .error e => .error e
              | .ok ps => .ok ⟨ps, false⟩
          | some (.jbool b) =>
              match validateItems items with
              | .error e => .error e
              | .ok ps => .ok ⟨ps, b⟩
          | some _ => .error "keep_all_blocks must be a boolean"
      | _ => .error "must have a patterns key with a list of patterns"
  | _ => .error "configuration for output file must be an object"

/-- `read_json_config` (splitLog lines 22-75) on an already-parsed top-level
JSON object; any validation error makes the whole load fail. -/
def read_json_config : List (String × JVal) → Except String (List (String × RawFileCfg))
  | [] => .ok []
  | (name, j) :: rest =>
      match validateFileCfg j with
      | .error e => .error e
      | .ok fc =>
          match read_json_config rest with
          | .error e => .error e
          | .ok r => .ok ((name, fc) :: r)

/-- The `re.compile` loop over one destination's validated patterns
(splitLog lines 200-211); a malformed pattern aborts. -/
def compileRules (compile : String → Option (String → Bool)) :
    List (String × Bool) → Except String (List Rule)
  | [] => .ok []
  | (p, k) :: rest =>
      match compile p with
      | none => .error p
      | some m =>
          match compileRules compile rest with
          | .error e => .error e
          | .ok rs => .ok (⟨m, k⟩ :: rs)

def compileDests (compile : String → Option (String → Bool)) :
    List (String × RawFileCfg) → Except String (List Dest)
  | [] => .ok []
  | (name, fc) :: rest =>
      match compileRules compile fc.patterns with
      | .error e => .error e
      | .ok rs =>
          match compileDests compile rest with
          | .error e => .error e
          | .ok ds => .ok (⟨name, rs, fc.keep_all_blocks⟩ :: ds)

/-- The whole configuration stage of splitLog: validation then compilation,
both before any source file is touched. -/
def compileConfig (compile : String → Option (String → Bool))
    (raw : List (String × JVal)) : Except String (List Dest) :=
  match read_json_config raw with
  | .error e => .error e
  | .ok v => compileDests compile v

/-- Every pattern string of a validated configuration. -/
def allRawPatterns (v : List (String × RawFileCfg)) : List String :=
  (v.map (fun e => e.2.patterns.map (fun pk => pk.1))).flatten

inductive SplitToolResult where
  | configError (code : Nat)
  | ran (g : GState)
deriving DecidableEq

/-- The whole splitLog tool on one invocation: configuration stage first
(`sys.exit(1)` on failure, modelled by `configError 1`), then the file loop. -/
def splitTool (compile : String → Option (String → Bool)) (raw : List (String × JVal))
    (failSink : String → Bool) (fs : List FileInput) : SplitToolResult :=
  match compileConfig compile raw with
  | .error _ => .configError 1
  | .ok cfg => .ran (splitProcessFiles cfg failSink fs)

def SplitToolResult.writesOf : SplitToolResult → List (String × List String)
  | .configError _ => []
  | .ran g => g.writes

def SplitToolResult.openedOf : SplitToolResult → List String
  | .configError _ => []
  | .ran g => g.opened

theorem compileRules_ok_all (compile : String → Option (String → Bool)) :
    ∀ (ps : List (String × Bool)) (rs : List Rule), compileRules compile ps = .ok rs →
      ∀ p ∈ ps.map (fun pk => pk.1), compile p ≠ none := by
  intro ps
  induction ps with
  | nil => simp
  | cons pk rest ih =>
      intro rs hok p hp
      rcases pk with ⟨q, k⟩
      simp only [compileRules] at hok
      cases hc : compile q with
      | none => rw [hc] at hok; exact absurd hok (by simp)
      | some m =>
          rw [hc] at hok
          cases hr : compileRules compile rest with
          | error e => rw [hr] at hok; exact absurd hok (by simp)
          | ok rs2 =>
              simp only [List.map_cons, List.mem_cons] at hp
              rcases hp with rfl | hp
              · simp [hc]
              · exact ih rs2 hr p hp

theorem compileDests_ok_all (compile : String → Option (String → Bool)) :
    ∀ (v : List (String × RawFileCfg)) (ds : List Dest), compileDests compile v = .ok ds →
      ∀ p ∈ allRawPatterns v, compile p ≠ none := by
  intro v
  induction v with
  | nil => simp [allRawPatterns]
  | cons e rest ih =>
      intro ds hok p hp
      rcases e with ⟨name, fc⟩
      simp only [compileDests] at hok
      cases hr : compileRules compile fc.patterns with
      | error e2 => rw [hr] at hok; exact absurd hok (by simp)
      | ok rs =>
          rw [hr] at hok
          cases hd : compileDests compile rest with
          | error e2 => rw [hd] at hok; exact absurd hok (by simp)
          | ok ds2 =>
              simp only [allRawPatterns, List.map_cons, List.flatten_cons,
                List.mem_append] at hp
              rcases hp with hp | hp
              · exact compileRules_ok_all compile fc.patterns rs hr p hp
              · exact ih ds2 hd p (by simpa [allRawPatterns] using hp)

/-! ## Boolean and permutation helpers -/

theorem any_congr {α : Type} (l : List α) (f g : α → Bool) (h : ∀ x ∈ l, f x = g x) :
    l.any f = l.any g := by
  induction l with
  | nil => rfl
  | cons x xs ih =>
      simp only [List.any_cons]
      rw [h x (by simp), ih (fun y hy => h y (by simp [hy]))]

theorem perm_any {α : Type} {l₁ l₂ : List α} (h : l₁.Perm l₂) (f : α → Bool) :
    l₁.any f = l₂.any f := by
  apply boolOfIff
  simp only [List.any_eq_true]
  constructor
  · rintro ⟨x, hx, hf⟩
    exact ⟨x, h.mem_iff.mp hx, hf⟩
  · rintro ⟨x, hx, hf⟩
    exact ⟨x, h.mem_iff.mpr hx, hf⟩

theorem any_comm {α β : Type} (l : List α) (m : List β) (f : α → β → Bool) :
    (l.any fun a => m.any fun b => f a b) = (m.any fun b => l.any fun a => f a b) := by
  apply boolOfIff
  simp only [List.any_eq_true]
  constructor
  · rintro ⟨a, ha, b, hb, hf⟩
    exact ⟨b, hb, a, ha, hf⟩
  · rintro ⟨b, hb, a, ha, hf⟩
    exact ⟨a, ha, b, hb, hf⟩

theorem any_and_const {α : Type} (l : List α) (f : α → Bool) (c : Bool) :
    (l.any fun x => f x && c) = (l.any f && c) := by
  induction l with
  | nil => simp
  | cons x xs ih =>
      simp only [List.any_cons, ih]
      cases c <;> cases f x <;> simp

theorem any_false {α : Type} (l : List α) : (l.any fun _ => false) = false := by
  induction l with
  | nil => rfl
  | cons x xs ih => simp [ih]

theorem forall₂_exists_iff {α : Type} {R : α → α → Prop} {l₁ l₂ : List α}
    (h : List.Forall₂ R l₁ l₂) (P : α → Prop) (hP : ∀ a b, R a b → (P a ↔ P b)) :
    (∃ a ∈ l₁, P a) ↔ ∃ b ∈ l₂, P b := by
  induction h with
  | nil => simp
  | cons hR _ ih =>
      simp only [List.mem_cons]
      constructor
      · rintro ⟨x, (rfl | hx), hPx⟩
        · exact ⟨_, Or.inl rfl, (hP _ _ hR).mp hPx⟩
        · rcases ih.mp ⟨x, hx, hPx⟩ with ⟨y, hy, hPy⟩
          exact ⟨y, Or.inr hy, hPy⟩
      · rintro ⟨x, (rfl | hx), hPx⟩
        · exact ⟨_, Or.inl rfl, (hP _ _ hR).mpr hPx⟩
        · rcases ih.mpr ⟨x, hx, hPx⟩ with ⟨y, hy, hPy⟩
          exact ⟨y, Or.inr hy, hPy⟩

theorem destLineHit_any (d : Dest) (line : String) :
    destLineHit d line = d.patterns.any (fun r => r.pat line) := by
  rw [destLineHit, scanRules_isSome]

/-- Length of a filtered map, needed to relate record-level and block-level
counts. -/
theorem filter_map_length {α β : Type} (f : α → β) (p : β → Bool) (l : List α) :
    ((l.map f).filter p).length = (l.filter (fun x => p (f x))).length := by
  induction l with
  | nil => rfl
  | cons x xs ih =>
      simp only [List.map_cons, List.filter_cons]
      cases hp : p (f x) <;> simp [ih]

/-! ## Bridge lemmas for the RemoveLines runner -/

theorem remStep_buf (bdry : String → Bool) (rr : Option (String → Bool))
    (st : RemFileState) (l : String) :
    (remStep bdry rr st l).buf = if bdry l then [l] else st.buf ++ [l] := by
  unfold remStep
  rw [remMark_eq]
  by_cases hbl : bdry l
  · cases hbe : st.buf.isEmpty <;> simp [remSeg, hbl, hbe, remEmit] <;> split <;> rfl
  · simp [remSeg, hbl]

theorem remStep_blocks (bdry : String → Bool) (rr : Option (String → Bool))
    (st : RemFileState) (l : String) :
    (remStep bdry rr st l).blocks
      = st.blocks ++ (if bdry l then (if st.buf.isEmpty then [] else [st.buf]) else []) := by
  unfold remStep
  rw [remMark_eq]
  by_cases hbl : bdry l
  · cases hbe : st.buf.isEmpty
    · simp only [remSeg, hbl, if_true, hbe, Bool.false_eq_true, if_false, remEmit]
      split <;> simp
    · simp [remSeg, hbl, hbe]
  · simp [remSeg, hbl]

theorem remLines_blocks (bdry : String → Bool) (rr : Option (String → Bool)) :
    ∀ (lines : List String) (st : RemFileState),
      (remFlush (remLines bdry rr st lines)).blocks
        = st.blocks ++ segmentAux bdry st.buf lines := by
  intro lines
  induction lines with
  | nil =>
      intro st
      cases hbe : st.buf.isEmpty with
      | true => simp [remLines, remFlush, hbe, segmentAux]
      | false =>
          simp only [remLines, List.foldl_nil, remFlush, hbe, Bool.false_eq_true, if_false,
            segmentAux]
          cases hbm : st.blockMatch <;> simp [remEmit, hbm]
  | cons l ls ih =>
      intro st
      rw [remLines_cons]
      have h := ih (remStep bdry rr st l)
      rw [h, remStep_blocks, remStep_buf]
      by_cases hbl : bdry l
      · cases hbe : st.buf.isEmpty with
        | true => simp [hbl, hbe, segmentAux]
        | false => simp [hbl, hbe, segmentAux, List.append_assoc]
      · simp [hbl, segmentAux]

theorem remStep_none (bdry : String → Bool) (st : RemFileState) (l : String) :
    remStep bdry none st l = remStep bdry (some (fun _ => false)) st l := by
  unfold remStep
  rw [remMark_eq, remMark_eq]
  simp

theorem remLines_none (bdry : String → Bool) :
    ∀ (lines : List String) (st : RemFileState),
      remLines bdry none st lines = remLines bdry (some (fun _ => false)) st lines := by
  intro lines
  induction lines with
  | nil => intro st; rfl
  | cons l ls ih =>
      intro st
      rw [remLines_cons, remLines_cons, remStep_none, ih]

theorem read_patterns_aux :
    ∀ (pfile : List String) (acc : List String),
      (∀ l ∈ pfile, (pyStrip l).toList.isEmpty = true ∨ startsHash (pyStrip l) = true) →
      pfile.foldl
        (fun acc line =>
          if !(pyStrip line).toList.isEmpty && !(startsHash (pyStrip line)) then
            acc ++ [pyStrip line]
          else acc)
        acc = acc := by
  intro pfile
  induction pfile with
  | nil =>
      intro acc _
      rfl
  | cons l ls ih =>
      intro acc h
      have hl := h l (by simp)
      have hstep : (if !(pyStrip l).toList.isEmpty && !(startsHash (pyStrip l))
          then acc ++ [pyStrip l] else acc) = acc := by
        rcases hl with hl | hl
        · rw [hl]
          simp
        · rw [hl]
          simp
      simp only [List.foldl_cons, hstep]
      exact ih acc (fun m hm => h m (by simp [hm]))

/-! ## Claim theorems -/

/-- Claim C1 (confirmed). Segmentation completeness: for every input line
stream, concatenating the emitted blocks' lines in emission order reproduces
the stream verbatim — no line lost, duplicated, reordered, or altered — in
both the splitLog segmenter and the RemoveLines segmenter. -/
theorem segmentation_completeness (cfg : List Dest) (uname : String)
    (rr : Option (String → Bool)) (lines : List String) :
    ((splitFile isTimestampBoundary cfg noFail uname lines).1.records.map
        BlockRec.lines).flatten = lines
    ∧ (remFile isTimestampBoundary rr lines).blocks.flatten = lines := by
  constructor
  · have h := (splitLines_master isTimestampBoundary cfg uname lines initSplitState rfl).2.1
    unfold splitFile
    rw [h]
    have hmap : ∀ bs : List (List String),
        (bs.map (recOf cfg)).map BlockRec.lines = bs := by
      intro bs
      rw [List.map_map]
      induction bs with
      | nil => rfl
      | cons x xs ihb => simp only [List.map_cons, ihb, Function.comp, recOf]
    simp only [initSplitState, List.nil_append, hmap]
    exact segmentAux_flatten isTimestampBoundary lines []
  · have h := remLines_blocks isTimestampBoundary rr lines initRem
    unfold remFile
    rw [h]
    simp only [initRem, List.nil_append]
    exact segmentAux_flatten isTimestampBoundary lines []

/-- Claim C6 (confirmed). Single boundary per block: in both tools, no
interior line (any line after the first) of an emitted block matches the
timestamp boundary predicate. -/
theorem single_boundary_per_block (cfg : List Dest) (uname : String)
    (rr : Option (String → Bool)) (lines : List String) (b : List String)
    (hmem : b ∈ (splitFile isTimestampBoundary cfg noFail uname lines).1.records.map
          BlockRec.lines
        ∨ b ∈ (remFile isTimestampBoundary rr lines).blocks) :
    ∀ l ∈ b.tail, isTimestampBoundary l = false := by
  have hseg : b ∈ segmentAux isTimestampBoundary [] lines := by
    rcases hmem with hmem | hmem
    · have h := (splitLines_master isTimestampBoundary cfg uname lines initSplitState rfl).2.1
      rw [show splitFile isTimestampBoundary cfg noFail uname lines
          = splitLines isTimestampBoundary cfg noFail uname initSplitState lines from rfl,
        h] at hmem
      simp only [initSplitState, List.nil_append, List.map_map, List.mem_map] at hmem
      rcases hmem with ⟨blk, hblk, heq⟩
      have : (recOf cfg blk).lines = blk := rfl
      rw [show (BlockRec.lines ∘ recOf cfg) blk = blk from rfl] at heq
      rwa [← heq]
    · have h := remLines_blocks isTimestampBoundary rr lines initRem
      rw [show remFile isTimestampBoundary rr lines
          = remFlush (remLines isTimestampBoundary rr initRem lines) from rfl, h] at hmem
      simpa [initRem] using hmem
  exact segmentAux_tail isTimestampBoundary lines [] (by simp) b hseg

/-- Claim C6 witness: a two-line file gives one block whose interior line is
not a boundary. -/
theorem single_boundary_per_block_witness :
    isTimestampBoundary "cont" = false :=
  single_boundary_per_block [] "u" none ["[01:02:03,456] start", "cont"]
    ["[01:02:03,456] start", "cont"] (Or.inr (by decide)) "cont" (by decide)

/-- Claim C3 (confirmed). Variant B filter correctness: the combined removal
regex is the alternation of the patterns; every block with a line matching
some removal pattern is wholly omitted from the primary output and counted
with its full line count, and every block with no matching line is written
verbatim and in order. -/
theorem variantB_filter (compile : String → String → Bool) (pats : List String)
    (lines : List String) (h : pats ≠ []) :
    buildRemovalRegex compile pats = some (combinedMatcher compile pats)
    ∧ (remFile isTimestampBoundary (some (combinedMatcher compile pats)) lines).blocks
        = segmentAux isTimestampBoundary [] lines
    ∧ (remFile isTimestampBoundary (some (combinedMatcher compile pats)) lines).output
        = (((remFile isTimestampBoundary (some (combinedMatcher compile pats)) lines).blocks).filter
            (fun b => !(b.any (combinedMatcher compile pats)))).flatten
    ∧ (remFile isTimestampBoundary (some (combinedMatcher compile pats)) lines).linesRemoved
        = ((((remFile isTimestampBoundary (some (combinedMatcher compile pats)) lines).blocks).filter
            (fun b => b.any (combinedMatcher compile pats))).map List.length).sum
    ∧ (remFile isTimestampBoundary (some (combinedMatcher compile pats)) lines).blocksRemoved
        = (((remFile isTimestampBoundary (some (combinedMatcher compile pats)) lines).blocks).filter
            (fun b => b.any (combinedMatcher compile pats))).length := by
  have hm := remLines_master isTimestampBoundary (combinedMatcher compile pats) lines initRem
    (by simp [initRem])
  rcases hm with ⟨h1, h2, h3, h4, _, _⟩
  have hblocks : (remFile isTimestampBoundary (some (combinedMatcher compile pats)) lines).blocks
      = segmentAux isTimestampBoundary [] lines := by
    unfold remFile
    rw [h1]
    simp [initRem]
  refine ⟨?_, hblocks, ?_, ?_, ?_⟩
  · unfold buildRemovalRegex
    cases pats with
    | nil => exact absurd rfl h
    | cons p ps => simp
  · rw [hblocks]
    unfold remFile
    rw [h2]
    simp [initRem]
  · rw [hblocks]
    unfold remFile
    rw [h3]
    simp [initRem]
  · rw [hblocks]
    unfold remFile
    rw [h4]
    simp [initRem]

/-- Claim C3 witness at a concrete file: the middle block matches the pattern
and is dropped with both its lines counted; the others pass verbatim. -/
theorem variantB_filter_witness :
    buildRemovalRegex (fun p s => s == p) ["bad"]
        = some (combinedMatcher (fun p s => s == p) ["bad"])
    ∧ (remFile isTimestampBoundary (some (combinedMatcher (fun p s => s == p) ["bad"]))
        ["[00:00:00,000] a", "[00:00:01,000] b", "bad", "[00:00:02,000] c"]).blocks
        = segmentAux isTimestampBoundary []
            ["[00:00:00,000] a", "[00:00:01,000] b", "bad", "[00:00:02,000] c"]
    ∧ (remFile isTimestampBoundary (some (combinedMatcher (fun p s => s == p) ["bad"]))
        ["[00:00:00,000] a", "[00:00:01,000] b", "bad", "[00:00:02,000] c"]).output
        = (((remFile isTimestampBoundary (some (combinedMatcher (fun p s => s == p) ["bad"]))
            ["[00:00:00,000] a", "[00:00:01,000] b", "bad", "[00:00:02,000] c"]).blocks).filter
            (fun b => !(b.any (combinedMatcher (fun p s => s == p) ["bad"])))).flatten
    ∧ (remFile isTimestampBoundary (some (combinedMatcher (fun p s => s == p) ["bad"]))
        ["[00:00:00,000] a", "[00:00:01,000] b", "bad", "[00:00:02,000] c"]).linesRemoved
        = ((((remFile isTimestampBoundary (some (combinedMatcher (fun p s => s == p) ["bad"]))
            ["[00:00:00,000] a", "[00:00:01,000] b", "bad", "[00:00:02,000] c"]).blocks).filter
            (fun b => b.any (combinedMatcher (fun p s => s == p) ["bad"]))).map List.length).sum
    ∧ (remFile isTimestampBoundary (some (combinedMatcher (fun p s => s == p) ["bad"]))
        ["[00:00:00,000] a", "[00:00:01,000] b", "bad", "[00:00:02,000] c"]).blocksRemoved
        = (((remFile isTimestampBoundary (some (combinedMatcher (fun p s => s == p) ["bad"]))
            ["[00:00:00,000] a", "[00:00:01,000] b", "bad", "[00:00:02,000] c"]).blocks).filter
            (fun b => b.any (combinedMatcher (fun p s => s == p) ["bad"]))).length :=
  variantB_filter (fun p s => s == p) ["bad"]
    ["[00:00:00,000] a", "[00:00:01,000] b", "bad", "[00:00:02,000] c"] (by decide)

/-- Claim C10 (confirmed). Empty-pattern identity for Variant B: a pattern
file with only blank and comment lines yields no patterns, no removal regex
is built, no block is removed, and the primary output is a verbatim copy of
the input. -/
theorem empty_pattern_identity (compile : String → String → Bool)
    (pfile : List String) (lines : List String)
    (h : ∀ l ∈ pfile, (pyStrip l).toList.isEmpty = true ∨ startsHash (pyStrip l) = true) :
    read_patterns_from_file pfile = []
    ∧ buildRemovalRegex compile (read_patterns_from_file pfile) = none
    ∧ (remFile isTimestampBoundary none lines).output = lines
    ∧ (remFile isTimestampBoundary none lines).blocksRemoved = 0
    ∧ (remFile isTimestampBoundary none lines).linesRemoved = 0 := by
  have hpats : read_patterns_from_file pfile = [] := read_patterns_aux pfile [] h
  have hnone : remFile isTimestampBoundary none lines
      = remFile isTimestampBoundary (some (fun _ => false)) lines := by
    unfold remFile
    rw [remLines_none]
  have hm := remLines_master isTimestampBoundary (fun _ => false) lines initRem
    (by simp [initRem])
  rcases hm with ⟨_, h2, h3, h4, _, _⟩
  refine ⟨hpats, by simp [hpats, buildRemovalRegex], ?_, ?_, ?_⟩
  · rw [hnone]
    unfold remFile
    rw [h2]
    have hfilter : (segmentAux isTimestampBoundary [] lines).filter
        (fun b => !(b.any (fun _ => false))) = segmentAux isTimestampBoundary [] lines := by
      apply List.filter_eq_self.mpr
      intro b _
      simp [any_false]
    simp only [initRem, List.nil_append, hfilter]
    exact segmentAux_flatten isTimestampBoundary lines []
  · rw [hnone]
    unfold remFile
    rw [h4]
    have hfilter : (segmentAux isTimestampBoundary [] lines).filter
        (fun b => b.any (fun _ => false)) = [] := by
      apply List.filter_eq_nil_iff.mpr
      intro b _
      simp [any_false]
    simp [initRem, hfilter]
  · rw [hnone]
    unfold remFile
    rw [h3]
    have hfilter : (segmentAux isTimestampBoundary [] lines).filter
        (fun b => b.any (fun _ => false)) = [] := by
      apply List.filter_eq_nil_iff.mpr
      intro b _
      simp [any_false]
    simp [initRem, hfilter]

/-- Claim C10 witness: an all-comment pattern file and a concrete log. -/
theorem empty_pattern_identity_witness :
    read_patterns_from_file ["# comment", "   "] = []
    ∧ buildRemovalRegex (fun p s => s == p) (read_patterns_from_file ["# comment", "   "]) = none
    ∧ (remFile isTimestampBoundary none ["[00:00:00,000] a", "x"]).output
        = ["[00:00:00,000] a", "x"]
    ∧ (remFile isTimestampBoundary none ["[00:00:00,000] a", "x"]).blocksRemoved = 0
    ∧ (remFile isTimestampBoundary none ["[00:00:00,000] a", "x"]).linesRemoved = 0 :=
  empty_pattern_identity (fun p s => s == p) ["# comment", "   "]
    ["[00:00:00,000] a", "x"] (by decide)

/-- Claim C9 (confirmed). Per-destination dispatch deduplication: for each
emitted block the claimed-destination list is duplicate-free (it is a set),
so the block's lines are appended to each claimed sink exactly once per
dispatch; the write trace is exactly one append per claimed destination plus
the conditional fallback append; and the blocks-extracted counter counts each
block at most once, however many destinations it fans out to. -/
theorem dispatch_deduplication (cfg : List Dest) (uname : String) (lines : List String) :
    (∀ rec ∈ (splitFile isTimestampBoundary cfg noFail uname lines).1.records,
        rec.dests.Nodup)
    ∧ (splitFile isTimestampBoundary cfg noFail uname lines).1.writes
        = ((splitFile isTimestampBoundary cfg noFail uname lines).1.records.map
            (fun rec => rec.dests.map (fun d => (d, rec.lines))
              ++ (if rec.dests.isEmpty || rec.keepPat || rec.keepFile
                  then [(uname, rec.lines)] else []))).flatten
    ∧ (splitFile isTimestampBoundary cfg noFail uname lines).1.blocksExtracted
        = ((splitFile isTimestampBoundary cfg noFail uname lines).1.records.filter
            (fun rec => !rec.dests.isEmpty)).length
    ∧ (splitFile isTimestampBoundary cfg noFail uname lines).1.blocksExtracted
        ≤ (splitFile isTimestampBoundary cfg noFail uname lines).1.blocksRead := by
  have hm := splitLines_master isTimestampBoundary cfg uname lines initSplitState rfl
  rcases hm with ⟨_, h2, h3, h4, h5, _⟩
  rw [show splitFile isTimestampBoundary cfg noFail uname lines
      = splitLines isTimestampBoundary cfg noFail uname initSplitState lines from rfl]
  rw [h2, h3, h4, h5]
  simp only [initSplitState, List.nil_append, Nat.zero_add]
  refine ⟨?_, ?_, ?_, ?_⟩
  · intro rec hrec
    rcases List.mem_map.mp hrec with ⟨b, _, heq⟩
    rw [← heq]
    exact classifyBlock_nodup cfg b
  · rw [List.map_map]
    congr 1
  · rw [filter_map_length]
    congr 1
  · calc ((segmentAux isTimestampBoundary [] lines).filter
          (fun b => !(classifyBlock cfg b).dests.isEmpty)).length
        ≤ (segmentAux isTimestampBoundary [] lines).length :=
          List.length_filter_le _ _
      _ = _ := rfl

/-- Claim C9 witness: two rules of one destination match different lines of
the same block; the destination is still claimed only once and the counter
counts the block once. -/
theorem dispatch_deduplication_witness :
    (⟨["[00:00:01,000] m", "n"], ["X.log"], false, false⟩ : BlockRec).dests.Nodup
    ∧ (splitFile isTimestampBoundary
        [⟨"X.log", [⟨fun s => s == "[00:00:01,000] m", false⟩,
            ⟨fun s => s == "n", false⟩], false⟩]
        noFail "u" ["[00:00:01,000] m", "n"]).1.blocksExtracted
      = ((splitFile isTimestampBoundary
          [⟨"X.log", [⟨fun s => s == "[00:00:01,000] m", false⟩,
              ⟨fun s => s == "n", false⟩], false⟩]
          noFail "u" ["[00:00:01,000] m", "n"]).1.records.filter
          (fun rec => !rec.dests.isEmpty)).length :=
  ⟨(dispatch_deduplication
      [⟨"X.log", [⟨fun s => s == "[00:00:01,000] m", false⟩,
          ⟨fun s => s == "n", false⟩], false⟩]
      "u" ["[00:00:01,000] m", "n"]).1
      ⟨["[00:00:01,000] m", "n"], ["X.log"], false, false⟩ (by decide),
    (dispatch_deduplication
      [⟨"X.log", [⟨fun s => s == "[00:00:01,000] m", false⟩,
          ⟨fun s => s == "n", false⟩], false⟩]
      "u" ["[00:00:01,000] m", "n"]).2.2.1⟩

/-- Rule used by the C2 counterexample: matches "x", does not keep. -/
def c2ruleA : Rule := ⟨fun s => s == "x", false⟩

/-- Rule used by the C2 counterexample: matches "x", keeps. -/
def c2ruleB : Rule := ⟨fun s => s == "x", true⟩

/-- Claim C2 counterexample. Permuting the rules inside one destination
changes `alsoFallback`: when a line matches two rules of the same
destination, only the first one in iteration order contributes its `keep`
flag (the `break` at splitLog line 310), so swapping them flips the flag. -/
theorem classification_order_counterexample :
    [c2ruleA, c2ruleB].Perm [c2ruleB, c2ruleA]
    ∧ alsoFallbackOf [⟨"D.log", [c2ruleA, c2ruleB], false⟩] ["x"] = false
    ∧ alsoFallbackOf [⟨"D.log", [c2ruleB, c2ruleA], false⟩] ["x"] = true :=
  ⟨List.Perm.swap c2ruleB c2ruleA [], by decide, by decide⟩

/-- Claim C2 (amended). Permuting the iteration order of Destinations changes
neither the claimed-destination set nor `alsoFallback`; permuting the Rules
inside a Destination still preserves the claimed-destination set (but may
change `alsoFallback`, as the counterexample shows). -/
theorem classification_order_independence (cfg cfg' cfg₁ cfg₂ : List Dest) (b : List String)
    (hperm : cfg.Perm cfg')
    (hrules : List.Forall₂
        (fun d₁ d₂ => d₁.name = d₂.name ∧ d₁.keep_all_blocks = d₂.keep_all_blocks
          ∧ d₁.patterns.Perm d₂.patterns) cfg₁ cfg₂) :
    (∀ d, d ∈ (classifyBlock cfg b).dests ↔ d ∈ (classifyBlock cfg' b).dests)
    ∧ alsoFallbackOf cfg b = alsoFallbackOf cfg' b
    ∧ (∀ d, d ∈ (classifyBlock cfg₁ b).dests ↔ d ∈ (classifyBlock cfg₂ b).dests) := by
  refine ⟨?_, ?_, ?_⟩
  · intro d
    rw [classifyBlock_dests_mem, classifyBlock_dests_mem]
    constructor
    · rintro ⟨line, hline, dst, hdst, hname, hhit⟩
      exact ⟨line, hline, dst, hperm.mem_iff.mp hdst, hname, hhit⟩
    · rintro ⟨line, hline, dst, hdst, hname, hhit⟩
      exact ⟨line, hline, dst, hperm.mem_iff.mpr hdst, hname, hhit⟩
  · unfold alsoFallbackOf alsoFallback
    rw [classifyBlock_isEmpty, classifyBlock_isEmpty, classifyBlock_keepPat,
      classifyBlock_keepPat, classifyBlock_keepFile, classifyBlock_keepFile]
    have e1 : (b.any fun line => cfg.any fun d => destLineHit d line)
        = (b.any fun line => cfg'.any fun d => destLineHit d line) :=
      any_congr b _ _ (fun line _ => perm_any hperm _)
    have e2 : (b.any fun line => cfg.any fun d => keepOfFirst d line)
        = (b.any fun line => cfg'.any fun d => keepOfFirst d line) :=
      any_congr b _ _ (fun line _ => perm_any hperm _)
    have e3 : (b.any fun line => cfg.any fun d => destLineHit d line && d.keep_all_blocks)
        = (b.any fun line => cfg'.any fun d => destLineHit d line && d.keep_all_blocks) :=
      any_congr b _ _ (fun line _ => perm_any hperm _)
    rw [e1, e2, e3]
  · intro d
    rw [classifyBlock_dests_mem, classifyBlock_dests_mem]
    have hp : ∀ line : String, ∀ x y : Dest,
        (x.name = y.name ∧ x.keep_all_blocks = y.keep_all_blocks ∧ x.patterns.Perm y.patterns) →
        ((x.name = d ∧ destLineHit x line = true) ↔ (y.name = d ∧ destLineHit y line = true)) := by
      rintro line x y ⟨hn, _, hpp⟩
      rw [hn, destLineHit_any, destLineHit_any, perm_any hpp]
    constructor
    · rintro ⟨line, hline, hQ⟩
      exact ⟨line, hline, (forall₂_exists_iff hrules _ (hp line)).mp hQ⟩
    · rintro ⟨line, hline, hQ⟩
      exact ⟨line, hline, (forall₂_exists_iff hrules _ (hp line)).mpr hQ⟩

/-- Claim C2 witness: destination-order and rule-order permutations at
concrete configurations. -/
theorem classification_order_independence_witness :
    (∀ d, d ∈ (classifyBlock [⟨"A.log", [c2ruleA], false⟩, ⟨"B.log", [c2ruleB], true⟩]
          ["x"]).dests
        ↔ d ∈ (classifyBlock [⟨"B.log", [c2ruleB], true⟩, ⟨"A.log", [c2ruleA], false⟩]
          ["x"]).dests)
    ∧ alsoFallbackOf [⟨"A.log", [c2ruleA], false⟩, ⟨"B.log", [c2ruleB], true⟩] ["x"]
        = alsoFallbackOf [⟨"B.log", [c2ruleB], true⟩, ⟨"A.log", [c2ruleA], false⟩] ["x"]
    ∧ (∀ d, d ∈ (classifyBlock [⟨"C.log", [c2ruleA, c2ruleB], false⟩] ["x"]).dests
        ↔ d ∈ (classifyBlock [⟨"C.log", [c2ruleB, c2ruleA], false⟩] ["x"]).dests) :=
  classification_order_independence
    [⟨"A.log", [c2ruleA], false⟩, ⟨"B.log", [c2ruleB], true⟩]
    [⟨"B.log", [c2ruleB], true⟩, ⟨"A.log", [c2ruleA], false⟩]
    [⟨"C.log", [c2ruleA, c2ruleB], false⟩]
    [⟨"C.log", [c2ruleB, c2ruleA], false⟩]
    ["x"]
    (List.Perm.swap (⟨"B.log", [c2ruleB], true⟩ : Dest) (⟨"A.log", [c2ruleA], false⟩ : Dest) [])
    (List.Forall₂.cons ⟨rfl, rfl, List.Perm.swap c2ruleB c2ruleA []⟩ List.Forall₂.nil)

/-- Modelled from the spec sentence for C4: a Rule is "matched" when its
pattern matches some line of the block; `alsoFallback` per the spec is then:
claimed set empty, or some matched rule keeps, or some claimed destination
forces fallback. -/
def specMatchedRuleKeep (cfg : List Dest) (b : List String) : Bool :=
  cfg.any (fun d => d.patterns.any (fun r => r.keep && b.any (fun line => r.pat line)))

/-- Modelled from the spec sentence for C4 (see `specMatchedRuleKeep`). -/
def specAlsoFallback (cfg : List Dest) (b : List String) : Bool :=
  !(cfg.any (fun d => destClaims d b)) || specMatchedRuleKeep cfg b
    || cfg.any (fun d => destClaims d b && d.keep_all_blocks)

/-- Claim C4 counterexample. A destination with two rules both matching the
block's only line, the first with `keep = false` and the second with
`keep = true`: by the spec's wording the second rule matched and keeps, so
`alsoFallback` should be true; the code stops at the first matching rule of
the destination (the `break` at line 310) and computes false. -/
theorem fallback_decision_counterexample :
    specAlsoFallback
        [⟨"E.log", [⟨fun s => s == "y", false⟩, ⟨fun s => s == "y", true⟩], false⟩] ["y"]
      = true
    ∧ alsoFallbackOf
        [⟨"E.log", [⟨fun s => s == "y", false⟩, ⟨fun s => s == "y", true⟩], false⟩] ["y"]
      = false :=
  ⟨by decide, by decide⟩

/-- Claim C4 (amended). `alsoFallback` is true iff the claimed-destination
set is empty, OR for some line some destination's first matching rule keeps,
OR some claimed destination has `keep_all_blocks`; in particular it is always
true when the claimed set is empty. -/
theorem fallback_decision (cfg : List Dest) (b : List String) :
    alsoFallbackOf cfg b
      = (!(cfg.any (fun d => destClaims d b))
          || b.any (fun line => cfg.any (fun d => keepOfFirst d line))
          || cfg.any (fun d => destClaims d b && d.keep_all_blocks))
    ∧ (cfg.any (fun d => destClaims d b) = false → alsoFallbackOf cfg b = true) := by
  have hswap1 : (b.any fun line => cfg.any fun d => destLineHit d line)
      = (cfg.any fun d => destClaims d b) := by
    rw [any_comm]
    rfl
  have hswap3 : (b.any fun line => cfg.any fun d => destLineHit d line && d.keep_all_blocks)
      = (cfg.any fun d => destClaims d b && d.keep_all_blocks) := by
    rw [any_comm]
    apply any_congr
    intro dd _
    exact any_and_const b (fun line => destLineHit dd line) dd.keep_all_blocks
  have hmain : alsoFallbackOf cfg b
      = (!(cfg.any (fun d => destClaims d b))
          || b.any (fun line => cfg.any (fun d => keepOfFirst d line))
          || cfg.any (fun d => destClaims d b && d.keep_all_blocks)) := by
    unfold alsoFallbackOf alsoFallback
    rw [classifyBlock_isEmpty, classifyBlock_keepPat, classifyBlock_keepFile, hswap1, hswap3]
  refine ⟨hmain, ?_⟩
  intro hempty
  rw [hmain, hempty]
  simp

/-- Claim C4 witness: a rule set claiming nothing on the given block, so the
fallback flag is forced true. -/
theorem fallback_decision_witness :
    ([⟨"F.log", [⟨fun s => s == "nomatch", false⟩], false⟩] : List Dest).any
        (fun d => destClaims d ["z"]) = false
    ∧ alsoFallbackOf [⟨"F.log", [⟨fun s => s == "nomatch", false⟩], false⟩] ["z"] = true :=
  ⟨by decide,
    (fallback_decision [⟨"F.log", [⟨fun s => s == "nomatch", false⟩], false⟩] ["z"]).2
      (by decide)⟩

theorem splitProcessFiles_cons (cfg : List Dest) (failSink : String → Bool)
    (f : FileInput) (fs : List FileInput) :
    splitProcessFiles cfg failSink (f :: fs)
      = gAppend (splitFileDelta cfg failSink f) (splitProcessFiles cfg failSink fs) := by
  show splitLoop cfg failSink (gAppend gEmpty (splitFileDelta cfg failSink f)) fs = _
  rw [splitLoop_eq, gAppend_empty_left]

theorem remProcessFiles_cons (rr : Option (String → Bool)) (f : FileInput)
    (fs : List FileInput) :
    remProcessFiles rr (f :: fs)
      = rgAppend (remFileDelta rr f) (remProcessFiles rr fs) := by
  show remLoop rr (rgAppend rgEmpty (remFileDelta rr f)) fs = _
  rw [remLoop_eq, rgAppend_empty_left]

/-- Configuration of the C5 counterexample: destination A claims the first
block, destination B the second. -/
def c5cfg : List Dest :=
  [⟨"A.log", [⟨fun s => s == "[00:00:00,000] a", false⟩], false⟩,
   ⟨"B.log", [⟨fun s => s == "[00:00:01,000] b", false⟩], false⟩]

/-- Environment of the C5 counterexample: only the sink `A.log` is
unwritable. -/
def c5fail : String → Bool := fun s => s == "A.log"

def c5lines : List String := ["[00:00:00,000] a", "[00:00:01,000] b"]

/-- Claim C5 counterexample. The second block is claimed by the healthy sink
`B.log`, so under the claim it would still be written after the failed write
of the first block to `A.log`; but the failed write raises into the per-file
handler (splitLog line 338), the rest of the file is skipped, and nothing at
all is written — the run records only the per-file error. -/
theorem sink_error_counterexample :
    (classifyBlock c5cfg ["[00:00:01,000] b"]).dests = ["B.log"]
    ∧ (splitProcessFiles c5cfg c5fail [⟨"f.log", some c5lines⟩]).writes = []
    ∧ (splitProcessFiles c5cfg c5fail [⟨"f.log", some c5lines⟩]).errors = ["f.log"] :=
  ⟨by decide, by decide, by decide⟩

/-- Claim C5 (amended). A sink write failure is caught by the per-file
handler: the error is reported and the remainder of that source file
(including the failing block's other destinations and all later blocks) is
skipped, while the writes already performed persist; it never aborts the run
— the other source files are processed exactly as if run alone. -/
theorem sink_write_failure_scope (cfg : List Dest) (failSink : String → Bool)
    (fs₁ fs₂ : List FileInput) (f : FileInput) (lines : List String)
    (hc : f.content = some lines)
    (hab : (splitFile isTimestampBoundary cfg failSink (unmatchedName f.name) lines).2
        = false) :
    splitProcessFiles cfg failSink (fs₁ ++ fs₂)
      = gAppend (splitProcessFiles cfg failSink fs₁) (splitProcessFiles cfg failSink fs₂)
    ∧ splitFileDelta cfg failSink f
        = ⟨[f.name],
            (splitFile isTimestampBoundary cfg failSink (unmatchedName f.name) lines).1.writes,
            [f.name], 0, 0, 0, 0⟩ := by
  refine ⟨splitProcessFiles_append cfg failSink fs₁ fs₂, ?_⟩
  cases hX : splitFile isTimestampBoundary cfg failSink (unmatchedName f.name) lines with
  | mk st ok =>
      cases ok with
      | true =>
          rw [hX] at hab
          simp at hab
      | false =>
          simp [splitFileDelta, hc, hX]

/-- Claim C5 witness: the aborting file of the counterexample, between two
empty file lists. -/
theorem sink_write_failure_scope_witness :
    splitProcessFiles c5cfg c5fail ([] ++ [])
      = gAppend (splitProcessFiles c5cfg c5fail []) (splitProcessFiles c5cfg c5fail [])
    ∧ splitFileDelta c5cfg c5fail ⟨"f.log", some c5lines⟩
        = ⟨["f.log"],
            (splitFile isTimestampBoundary c5cfg c5fail (unmatchedName "f.log") c5lines).1.writes,
            ["f.log"], 0, 0, 0, 0⟩ :=
  sink_write_failure_scope c5cfg c5fail [] [] ⟨"f.log", some c5lines⟩ c5lines rfl (by decide)

/-- Claim C7 (confirmed). Configuration errors are fatal and early: an
invalid rule-set shape or a pattern the regex engine rejects makes the run
abort with exit status 1 during the configuration stage, before any source
file is opened — zero files are read and zero block writes occur. -/
theorem config_errors_fatal (compile : String → Option (String → Bool))
    (raw : List (String × JVal)) (failSink : String → Bool) (fs : List FileInput)
    (h : (∃ msg, read_json_config raw = Except.error msg)
        ∨ (∃ v, read_json_config raw = Except.ok v
            ∧ ∃ p ∈ allRawPatterns v, compile p = none)) :
    splitTool compile raw failSink fs = SplitToolResult.configError 1
    ∧ (splitTool compile raw failSink fs).openedOf = []
    ∧ (splitTool compile raw failSink fs).writesOf = [] := by
  have hcc : ∃ e, compileConfig compile raw = Except.error e := by
    rcases h with ⟨msg, herr⟩ | ⟨v, hok, p, hp, hc⟩
    · exact ⟨msg, by simp [compileConfig, herr]⟩
    · cases hd : compileDests compile v with
      | error e => exact ⟨e, by simp [compileConfig, hok, hd]⟩
      | ok ds => exact absurd hc (compileDests_ok_all compile v ds hd p hp)
  rcases hcc with ⟨e, he⟩
  have ht : splitTool compile raw failSink fs = SplitToolResult.configError 1 := by
    simp [splitTool, he]
  refine ⟨ht, ?_, ?_⟩
  · rw [ht]
    rfl
  · rw [ht]
    rfl

/-- Raw configuration of the C7 witness: one output file with the single
malformed pattern string. -/
def c7raw : List (String × JVal) :=
  [("out.log", JVal.jobj [("patterns", JVal.jarr [JVal.jstr "("])])]

/-- Regex-engine oracle of the C7 witness: rejects exactly the pattern
consisting of one unclosed parenthesis. -/
def c7compile : String → Option (String → Bool) :=
  fun s => if s == "(" then none else some (fun _ => true)

/-- Claim C7 witness: the malformed pattern aborts the run before the one
available source file is opened. -/
theorem config_errors_fatal_witness :
    splitTool c7compile c7raw noFail [⟨"a.log", some ["x"]⟩]
        = SplitToolResult.configError 1
    ∧ (splitTool c7compile c7raw noFail [⟨"a.log", some ["x"]⟩]).openedOf = []
    ∧ (splitTool c7compile c7raw noFail [⟨"a.log", some ["x"]⟩]).writesOf = [] :=
  config_errors_fatal c7compile c7raw noFail [⟨"a.log", some ["x"]⟩]
    (Or.inr ⟨[("out.log", ⟨[("(", false)], false⟩)], rfl, "(",
      by simp [allRawPatterns], rfl⟩)

/-- Claim C8 (confirmed). Source-access-error isolation, in both tools: a
file whose open/read raises contributes only its reported error; the files
before and after it are processed exactly as they would be on their own, so
the failure never propagates past the per-file handler of the coordinator. -/
theorem source_error_isolation (cfg : List Dest) (failSink : String → Bool)
    (rr : Option (String → Bool)) (n : String) (fs₁ fs₂ : List FileInput) :
    splitProcessFiles cfg failSink (fs₁ ++ ⟨n, none⟩ :: fs₂)
      = gAppend (splitProcessFiles cfg failSink fs₁)
          (gAppend ⟨[], [], [n], 0, 0, 0, 0⟩ (splitProcessFiles cfg failSink fs₂))
    ∧ remProcessFiles rr (fs₁ ++ ⟨n, none⟩ :: fs₂)
      = rgAppend (remProcessFiles rr fs₁)
          (rgAppend ⟨[], [], [n], 0, 0, 0, 0, 0⟩ (remProcessFiles rr fs₂)) := by
  constructor
  · rw [splitProcessFiles_append, splitProcessFiles_cons]
    rfl
  · rw [remProcessFiles_append, remProcessFiles_cons]
    rfl
